import Mathlib

/-!
Shallow embedding of the EPG updater script (fetch_and_commit.py) and
verification of the specification claims about it.

The script fetches remote XMLTV feeds, computes a per-feed icon signature,
groups feeds by signature, builds a deduplicated icon pool, rewrites the
icon references of every feed to published pool URLs, and persists an icon
map between runs.  Pure fragments of the script are translated into Lean
functions below; the exceptions raised by library calls are modelled by
explicit outcome types, and the stdlib hash functions (hashlib.sha256,
hashlib.sha1) and urlparse are abstracted as function parameters, since the
properties under verification do not depend on their internals.
-/

set_option maxHeartbeats 1000000
set_option maxRecDepth 4000

namespace EpgUpdater

/-! ## Shared string utilities -/

/-- Models the Python idiom str(obj).replace(chr(92), chr(47)) used by
CustomEncoder and by the raw-URL templating: backslashes become slashes. -/
def toPosix (s : String) : String := s.replace "\\" "/"

/-- RAW_BASE_URL templating (line 36): the published raw URL for a repo file. -/
def rawBaseUrl (owner repo filepath : String) : String :=
  "https://raw.githubusercontent.com/" ++ owner ++ "/" ++ repo ++ "/main/" ++ filepath

/-! ## Signature engine (get_icon_signature_fast, lines 174-203)

An icon element is reduced to the single attribute the parser reads: its
optional src attribute. -/

/-- An icon element as visited by the streaming parse. -/
structure IconElem where
  src : Option String
  deriving DecidableEq

/-- The iterparse loop body of get_icon_signature_fast (lines 183-193):
walks icon elements in document order, inserting each src attribute into the
set of urls, and breaks out of the loop once count exceeds 10000.  The
Python set is modelled as a duplicate-free list in insertion order. -/
def collectIconUrls : List IconElem → Nat → List String → List String
  | [], _, icon_urls => icon_urls
  | element :: rest, count, icon_urls =>
    if count > 10000 then icon_urls
    else
      let icon_urls' :=
        match element.src with
        | some u => if u ∈ icon_urls then icon_urls else icon_urls ++ [u]
        | none => icon_urls
      collectIconUrls rest (count + 1) icon_urls'

/-- Outcome of opening and stream-parsing a feed file for its icon elements:
either the list of icon elements in document order, or an exception (for
example malformed XML or an unreadable file). -/
inductive FeedParse where
  | ok (icons : List IconElem)
  | raises (msg : String)
  deriving DecidableEq

/-- get_icon_signature_fast (lines 174-203).  The sha256 parameter abstracts
hashlib.sha256(s.encode()).hexdigest().  An empty URL set yields None; any
exception during the parse is caught and also yields None (lines 201-203);
otherwise the sorted URL set is concatenated and hashed (lines 198-199). -/
def get_icon_signature_fast (sha256 : String → String) (feed : FeedParse) : Option String :=
  match feed with
  | .raises _ => none
  | .ok icons =>
    let icon_urls := collectIconUrls icons 0 []
    if icon_urls.isEmpty then none
    else some (sha256 (String.join (List.insertionSort (· ≤ ·) icon_urls)))

/-- The distinct icon URLs appearing in a feed: the src attributes of its
icon elements (set semantics are taken via toFinset / membership later). -/
def feedIconUrls (icons : List IconElem) : List String := icons.filterMap IconElem.src

theorem collectIconUrls_spec (l : List IconElem) :
    ∀ count icon_urls, count + l.length ≤ 10001 →
      (∀ u, u ∈ collectIconUrls l count icon_urls ↔ u ∈ icon_urls ∨ u ∈ feedIconUrls l) ∧
      (icon_urls.Nodup → (collectIconUrls l count icon_urls).Nodup) := by
  induction l with
  | nil =>
    intro count icon_urls _
    simp [collectIconUrls, feedIconUrls]
  | cons e rest ih =>
    intro count icon_urls h
    have hlen : count + rest.length + 1 ≤ 10001 := by
      rw [List.length_cons] at h
      omega
    have hc : ¬ count > 10000 := by omega
    have hrec := ih (count + 1)
    constructor
    · intro u
      simp only [collectIconUrls, hc, if_false]
      cases hsrc : e.src with
      | none =>
        rw [(hrec icon_urls (by omega)).1 u]
        simp [feedIconUrls, hsrc]
      | some v =>
        by_cases hv : v ∈ icon_urls
        · simp only [hsrc, hv, if_true]
          rw [(hrec icon_urls (by omega)).1 u]
          simp only [feedIconUrls, List.filterMap_cons, hsrc]
          constructor
          · rintro (hu | hu)
            · exact Or.inl hu
            · exact Or.inr (List.mem_cons_of_mem _ hu)
          · rintro (hu | hu)
            · exact Or.inl hu
            · rcases List.mem_cons.mp hu with hu | hu
              · exact Or.inl (hu ▸ hv)
              · exact Or.inr hu
        · simp only [hsrc, hv, if_false]
          rw [(hrec (icon_urls ++ [v]) (by omega)).1 u]
          simp [feedIconUrls, List.filterMap_cons, hsrc, List.mem_append, or_assoc,
            List.mem_cons, or_comm, or_left_comm]
    · intro hnd
      simp only [collectIconUrls, hc, if_false]
      cases hsrc : e.src with
      | none => exact (hrec icon_urls (by omega)).2 hnd
      | some v =>
        by_cases hv : v ∈ icon_urls
        · simp only [hsrc, hv, if_true]
          exact (hrec icon_urls (by omega)).2 hnd
        · simp only [hsrc, hv, if_false]
          refine (hrec (icon_urls ++ [v]) (by omega)).2 ?_
          simp [List.nodup_append, hnd, hv]

theorem collectIconUrls_sorted_canonical (l : List IconElem) (h : l.length ≤ 10001) :
    List.insertionSort (· ≤ ·) (collectIconUrls l 0 []) =
      (feedIconUrls l).toFinset.sort (· ≤ ·) := by
  have hspec := collectIconUrls_spec l 0 [] (by omega)
  apply List.eq_of_perm_of_sorted
    ((List.perm_ext_iff_of_nodup ?_ ?_).mpr ?_)
    (List.sorted_insertionSort _ _) (Finset.sort_sorted _ _)
  · exact ((List.perm_insertionSort _ _).nodup_iff).mpr (hspec.2 List.nodup_nil)
  · exact Finset.sort_nodup _ _
  · intro u
    rw [(List.perm_insertionSort _ _).mem_iff, (hspec.1 u), Finset.mem_sort,
      List.mem_toFinset]
    simp

theorem collectIconUrls_empty_iff (l : List IconElem) (h : l.length ≤ 10001) :
    collectIconUrls l 0 [] = [] ↔ feedIconUrls l = [] := by
  have hspec := collectIconUrls_spec l 0 [] (by omega)
  constructor
  · intro he
    rw [List.eq_nil_iff_forall_not_mem]
    intro u hu
    have := (hspec.1 u).mpr (Or.inr hu)
    rw [he] at this
    exact absurd this (List.not_mem_nil u)
  · intro he
    rw [List.eq_nil_iff_forall_not_mem]
    intro u hu
    have := (hspec.1 u).mp hu
    rw [he] at this
    rcases this with h1 | h1 <;> exact absurd h1 (List.not_mem_nil u)

/-- Claim C1 (amended): for feeds containing at most 10001 icon elements, the
computed icon signature is independent of the order in which the icon
elements are encountered: it equals the hash of the lexicographically sorted
concatenation of the distinct URL set; a feed with no icon src attributes
yields the nil signature (none), and a feed with a non-empty URL set yields
a non-nil signature, so the two are always distinct.  (The streaming parse
breaks after 10001 icon elements, which is why the bound is needed: beyond
it the collected set can depend on document order, see C1_counterexample.) -/
theorem C1_signature_order_independent (sha256 : String → String)
    (l1 l2 : List IconElem)
    (h1 : l1.length ≤ 10001) (h2 : l2.length ≤ 10001)
    (hset : ∀ u, u ∈ feedIconUrls l1 ↔ u ∈ feedIconUrls l2) :
    get_icon_signature_fast sha256 (.ok l1) = get_icon_signature_fast sha256 (.ok l2) ∧
    (get_icon_signature_fast sha256 (.ok l1) = none ↔ feedIconUrls l1 = []) ∧
    (feedIconUrls l1 ≠ [] →
      get_icon_signature_fast sha256 (.ok l1) =
        some (sha256 (String.join ((feedIconUrls l1).toFinset.sort (· ≤ ·))))) := by
  have hfin : (feedIconUrls l1).toFinset = (feedIconUrls l2).toFinset := by
    ext u
    rw [List.mem_toFinset, List.mem_toFinset]
    exact hset u
  have key : ∀ (l : List IconElem), l.length ≤ 10001 →
      get_icon_signature_fast sha256 (.ok l) =
        if feedIconUrls l = [] then none
        else some (sha256 (String.join ((feedIconUrls l).toFinset.sort (· ≤ ·)))) := by
    intro l hl
    show (let icon_urls := collectIconUrls l 0 [];
      if icon_urls.isEmpty then none
      else some (sha256 (String.join (List.insertionSort (· ≤ ·) icon_urls)))) = _
    by_cases he : feedIconUrls l = []
    · have : collectIconUrls l 0 [] = [] := (collectIconUrls_empty_iff l hl).mpr he
      simp [this, he]
    · have hne : collectIconUrls l 0 [] ≠ [] := by
        intro hcontra
        exact he ((collectIconUrls_empty_iff l hl).mp hcontra)
      rw [if_neg he]
      simp only [List.isEmpty_iff, hne, if_false]
      rw [collectIconUrls_sorted_canonical l hl]
  refine ⟨?_, ?_, ?_⟩
  · rw [key l1 h1, key l2 h2, hfin]
    by_cases he : feedIconUrls l1 = []
    · have he2 : feedIconUrls l2 = [] := by
        rw [List.eq_nil_iff_forall_not_mem] at he ⊢
        intro u hu
        exact he u ((hset u).mpr hu)
      simp [he, he2]
    · have he2 : feedIconUrls l2 ≠ [] := by
        intro hcontra
        rw [List.eq_nil_iff_forall_not_mem] at hcontra
        rcases List.exists_mem_of_ne_nil _ he with ⟨u, hu⟩
        exact hcontra u ((hset u).mp hu)
      simp [he, he2]
  · rw [key l1 h1]
    by_cases he : feedIconUrls l1 = [] <;> simp [he]
  · intro he
    rw [key l1 h1, if_neg he]

/-- Witness for C1 at a concrete input: two two-element feeds carrying the
same pair of URLs in opposite orders produce the same signature. -/
theorem C1_witness :
    get_icon_signature_fast (fun s => s) (.ok [⟨some "b"⟩, ⟨some "a"⟩]) =
      get_icon_signature_fast (fun s => s) (.ok [⟨some "a"⟩, ⟨some "b"⟩]) := by
  have h := C1_signature_order_independent (fun s => s)
    [⟨some "b"⟩, ⟨some "a"⟩] [⟨some "a"⟩, ⟨some "b"⟩]
    (by decide) (by decide)
    (by intro u; simp [feedIconUrls]; tauto)
  exact h.1

/-! ### Counterexample to C1 as stated: the 10000-element cap

The loop breaks once count exceeds 10000, so only a prefix of a very large
feed is inspected.  Two document orders of the same URL set can then collect
different sets. -/

/-- The icon element carrying src attribute a. -/
def iconA : IconElem := ⟨some "a"⟩

/-- The icon element carrying src attribute b. -/
def iconB : IconElem := ⟨some "b"⟩

/-- A feed with 10001 icon elements for URL a followed by one for URL b. -/
def cexFeed1 : List IconElem := List.replicate 10001 iconA ++ [iconB]

/-- The same multiset of icon elements with the b element first. -/
def cexFeed2 : List IconElem := iconB :: List.replicate 10001 iconA

theorem collect_break (l : List IconElem) (count : Nat) (icon_urls : List String)
    (hc : count > 10000) : collectIconUrls l count icon_urls = icon_urls := by
  cases l with
  | nil => rfl
  | cons e rest => simp [collectIconUrls, hc]

theorem collect_step_new (e : IconElem) (rest : List IconElem) (count : Nat)
    (icon_urls : List String) (u : String) (hc : ¬ count > 10000) (hsrc : e.src = some u)
    (hu : u ∉ icon_urls) :
    collectIconUrls (e :: rest) count icon_urls =
      collectIconUrls rest (count + 1) (icon_urls ++ [u]) := by
  simp [collectIconUrls, hc, hsrc, hu]

theorem collect_replicate_mem (e : IconElem) (u : String) (hsrc : e.src = some u) (n : Nat) :
    ∀ count icon_urls, u ∈ icon_urls →
      collectIconUrls (List.replicate n e) count icon_urls = icon_urls := by
  induction n with
  | zero => intro count icon_urls _; simp [collectIconUrls]
  | succ n ih =>
    intro count icon_urls ha
    rw [List.replicate_succ]
    by_cases hc : count > 10000
    · simp [collectIconUrls, hc]
    · simp only [collectIconUrls, hc, if_false, hsrc, ha, if_true]
      exact ih (count + 1) icon_urls ha

theorem collect_replicate_append (e : IconElem) (u : String) (hsrc : e.src = some u)
    (n : Nat) (rest : List IconElem) :
    ∀ count icon_urls, u ∈ icon_urls → count + n ≤ 10001 →
      collectIconUrls (List.replicate n e ++ rest) count icon_urls =
        collectIconUrls rest (count + n) icon_urls := by
  induction n with
  | zero => intro count icon_urls _ _; simp
  | succ n ih =>
    intro count icon_urls ha h
    rw [List.replicate_succ, List.cons_append]
    have hc : ¬ count > 10000 := by omega
    simp only [collectIconUrls, hc, if_false, hsrc, ha, if_true]
    rw [ih (count + 1) icon_urls ha (by omega)]
    congr 1
    omega

theorem cex_collect1 : collectIconUrls cexFeed1 0 [] = ["a"] := by
  unfold cexFeed1
  have h10001 : (10001 : Nat) = 10000 + 1 := rfl
  rw [h10001, List.replicate_succ, List.cons_append]
  rw [collect_step_new iconA (List.replicate 10000 iconA ++ [iconB]) 0 [] "a"
    (by omega) rfl (by simp)]
  rw [show (([] : List String) ++ ["a"]) = ["a"] from rfl, show (0 : Nat) + 1 = 1 from rfl]
  rw [collect_replicate_append iconA "a" rfl 10000 [iconB] 1 ["a"] (by simp) (by omega)]
  rw [show (1 : Nat) + 10000 = 10001 from rfl]
  exact collect_break [iconB] 10001 ["a"] (by omega)

theorem cex_collect2 : collectIconUrls cexFeed2 0 [] = ["b", "a"] := by
  unfold cexFeed2
  rw [collect_step_new iconB (List.replicate 10001 iconA) 0 [] "b"
    (by omega) rfl (by simp)]
  rw [show (([] : List String) ++ ["b"]) = ["b"] from rfl, show (0 : Nat) + 1 = 1 from rfl]
  have h10001 : (10001 : Nat) = 10000 + 1 := rfl
  rw [h10001, List.replicate_succ]
  rw [collect_step_new iconA (List.replicate 10000 iconA) 1 ["b"] "a"
    (by omega) rfl (by decide)]
  rw [show ((["b"] : List String) ++ ["a"]) = ["b", "a"] from rfl,
    show (1 : Nat) + 1 = 2 from rfl]
  exact collect_replicate_mem iconA "a" rfl 10000 2 ["b", "a"] (by simp)

theorem filterMap_src_replicate (n : Nat) (e : IconElem) (u : String) (hsrc : e.src = some u) :
    (List.replicate n e).filterMap IconElem.src = List.replicate n u := by
  induction n with
  | zero => rfl
  | succ n ih => simp [List.replicate_succ, List.filterMap_cons, hsrc, ih]

theorem cex_feedIconUrls1 : feedIconUrls cexFeed1 = List.replicate 10001 "a" ++ ["b"] := by
  unfold cexFeed1 feedIconUrls
  rw [List.filterMap_append, filterMap_src_replicate 10001 iconA "a" rfl]
  rfl

theorem cex_feedIconUrls2 : feedIconUrls cexFeed2 = "b" :: List.replicate 10001 "a" := by
  unfold cexFeed2 feedIconUrls
  simp only [List.filterMap_cons, show iconB.src = some "b" from rfl,
    filterMap_src_replicate 10001 iconA "a" rfl]

/-- Counterexample to claim C1 as stated: two feeds whose icon elements carry
exactly the same set of distinct URLs (here a and b) but in different
document orders receive different signatures, because the parse breaks after
10001 icon elements, so only a prefix of the first feed ever reaches the set.
The hash parameter is instantiated with the identity function; the two digest
inputs are distinct strings of different length, so SHA-256 separates them
just as the identity does. -/
theorem C1_counterexample :
    (feedIconUrls cexFeed1).toFinset = (feedIconUrls cexFeed2).toFinset ∧
    get_icon_signature_fast (fun s => s) (.ok cexFeed1) ≠
      get_icon_signature_fast (fun s => s) (.ok cexFeed2) := by
  constructor
  · rw [cex_feedIconUrls1, cex_feedIconUrls2]
    ext u
    simp only [List.mem_toFinset, List.mem_append, List.mem_cons, List.mem_replicate,
      List.mem_singleton, List.not_mem_nil, or_false]
    tauto
  · have h1 : get_icon_signature_fast (fun s => s) (.ok cexFeed1) = some "a" := by
      simp only [get_icon_signature_fast]
      rw [cex_collect1]
      rfl
    have h2 : get_icon_signature_fast (fun s => s) (.ok cexFeed2) =
        some (String.join (List.insertionSort (· ≤ ·) ["b", "a"])) := by
      simp only [get_icon_signature_fast]
      rw [cex_collect2]
      rfl
    have hlen : (String.join (List.insertionSort (· ≤ ·) ["b", "a"])).length = 2 := by
      rw [String.join_eq]
      show ((List.insertionSort (· ≤ ·) ["b", "a"]).map String.data).flatten.length = 2
      rw [List.length_flatten]
      have hperm := (List.perm_insertionSort (· ≤ ·) ["b", "a"]).map String.data
      rw [(hperm.map List.length).sum_eq]
      rfl
    rw [h1, h2]
    intro hcontra
    rw [Option.some.injEq] at hcontra
    have hlc := congrArg String.length hcontra
    rw [hlen] at hlc
    exact absurd hlc (by decide)

/-! ## Rewriter (process_epg_file, lines 367-454)

A channel element is reduced to what the rewrite loop reads and writes: its
optional id attribute and its list of icon children (channel.find picks the
first, etree.SubElement appends a fresh one).  Icon children are reduced to
their optional src attribute; other attributes and children are untouched by
the rewriter and therefore omitted.  Dictionaries are modelled as
association lists with first-match lookup; Path.exists is abstracted as the
predicate pool_on_disk on path strings. -/

/-- An icon child element of a channel. -/
structure IconTag where
  src : Option String
  deriving DecidableEq

/-- A channel element of a feed tree. -/
structure Channel where
  id : Option String
  icons : List IconTag
  deriving DecidableEq

/-- Lines 407-413: find the first icon child (creating one, with no src, if
absent) and set its src to new_icon_url only when it differs from the
current value, counting one change when it does. -/
def set_icon_src (icons : List IconTag) (new_icon_url : String) : List IconTag × Nat :=
  match icons with
  | [] => ([⟨some new_icon_url⟩], 1)
  | icon_tag :: rest =>
    if icon_tag.src = some new_icon_url then (icon_tag :: rest, 0)
    else (⟨some new_icon_url⟩ :: rest, 1)

/-- Lines 395-401: resolve the channel id through the group map and the icon
pool.  The result is the matched pool path when the channel has an id, the id
maps to a non-empty icon URL pointer, and the pointer has a pool entry;
otherwise nothing (Python falsiness of None and of the empty string is spelt
out). -/
def resolve_pool_path (group_map icon_pool : List (String × String)) (c : Channel) :
    Option String :=
  match c.id.bind fun channel_id => group_map.lookup channel_id with
  | none => none
  | some icon_url_pointer =>
    if icon_url_pointer = "" then none
    else icon_pool.lookup icon_url_pointer

/-- The body of the per-channel loop (lines 395-413): a channel whose id does
not resolve to an existing pool file is left untouched; otherwise the first
icon child src is set to the published URL when it differs. -/
def process_channel (group_map icon_pool : List (String × String))
    (pool_on_disk : String → Bool) (owner repo_name : String) (c : Channel) :
    Channel × Nat :=
  match resolve_pool_path group_map icon_pool c with
  | none => (c, 0)
  | some matched_icon_path =>
    if pool_on_disk matched_icon_path then
      let new_icon_url := rawBaseUrl owner repo_name (toPosix matched_icon_path)
      let res := set_icon_src c.icons new_icon_url
      ({ c with icons := res.1 }, res.2)
    else (c, 0)

/-- Lines 371-414: the channel pass of process_epg_file.  An empty group map
or an empty icon pool short-circuits (line 371); otherwise every channel is
processed and the changes are summed. -/
def process_epg_channels (group_map icon_pool : List (String × String))
    (pool_on_disk : String → Bool) (owner repo_name : String)
    (channels : List Channel) : List Channel × Nat :=
  if group_map.isEmpty || icon_pool.isEmpty then (channels, 0)
  else
    (channels.map fun c => (process_channel group_map icon_pool pool_on_disk owner repo_name c).1,
     (channels.map fun c => (process_channel group_map icon_pool pool_on_disk owner repo_name c).2).sum)

/-- Lines 415-448: the feed file on disk after one call of process_epg_file.
The file is re-serialized only when changes_made is positive; otherwise the
original bytes stay.  File content is abstracted to the parsed channel list
(the write-then-reparse round trip of the XML tree is the identity at this
level of abstraction). -/
def process_epg_file (group_map icon_pool : List (String × String))
    (pool_on_disk : String → Bool) (owner repo_name : String)
    (file_channels : List Channel) : List Channel :=
  let res := process_epg_channels group_map icon_pool pool_on_disk owner repo_name file_channels
  if res.2 > 0 then res.1 else file_channels

theorem set_icon_src_unchanged_iff (icons : List IconTag) (u : String) :
    (set_icon_src icons u).1 = icons ↔ icons.head?.bind IconTag.src = some u := by
  cases icons with
  | nil => simp [set_icon_src]
  | cons t rest =>
    by_cases h : t.src = some u
    · simp [set_icon_src, h]
    · simp only [set_icon_src, h, if_false, List.head?_cons, Option.bind_some]
      constructor
      · intro hcontra
        have h1 : (⟨some u⟩ : IconTag) = t := ((List.cons.injEq _ _ _ _).mp hcontra).1
        exact absurd (congrArg IconTag.src h1).symm h
      · intro hcontra
        exact absurd hcontra h

theorem set_icon_src_zero_iff (icons : List IconTag) (u : String) :
    (set_icon_src icons u).2 = 0 ↔ (set_icon_src icons u).1 = icons := by
  cases icons with
  | nil => simp [set_icon_src]
  | cons t rest =>
    by_cases h : t.src = some u
    · simp [set_icon_src, h]
    · simp only [set_icon_src, h, if_false]
      constructor
      · intro h0
        exact absurd h0 one_ne_zero
      · intro hcontra
        have h1 : (⟨some u⟩ : IconTag) = t := ((List.cons.injEq _ _ _ _).mp hcontra).1
        exact absurd (congrArg IconTag.src h1).symm h

theorem set_icon_src_idem (icons : List IconTag) (u : String) :
    set_icon_src (set_icon_src icons u).1 u = ((set_icon_src icons u).1, 0) := by
  cases icons with
  | nil => simp [set_icon_src]
  | cons t rest =>
    by_cases h : t.src = some u
    · simp [set_icon_src, h]
    · simp [set_icon_src, h]

theorem process_channel_of_resolve_none (group_map icon_pool : List (String × String))
    (pool_on_disk : String → Bool) (owner repo_name : String) (c : Channel)
    (hres : resolve_pool_path group_map icon_pool c = none) :
    process_channel group_map icon_pool pool_on_disk owner repo_name c = (c, 0) := by
  unfold process_channel
  rw [hres]

theorem process_channel_of_not_on_disk (group_map icon_pool : List (String × String))
    (pool_on_disk : String → Bool) (owner repo_name : String) (c : Channel)
    (matched_icon_path : String)
    (hres : resolve_pool_path group_map icon_pool c = some matched_icon_path)
    (hd : pool_on_disk matched_icon_path = false) :
    process_channel group_map icon_pool pool_on_disk owner repo_name c = (c, 0) := by
  unfold process_channel
  rw [hres]
  simp [hd]

theorem process_channel_of_on_disk (group_map icon_pool : List (String × String))
    (pool_on_disk : String → Bool) (owner repo_name : String) (c : Channel)
    (matched_icon_path : String)
    (hres : resolve_pool_path group_map icon_pool c = some matched_icon_path)
    (hd : pool_on_disk matched_icon_path = true) :
    process_channel group_map icon_pool pool_on_disk owner repo_name c =
      ({ c with icons :=
          (set_icon_src c.icons (rawBaseUrl owner repo_name (toPosix matched_icon_path))).1 },
        (set_icon_src c.icons (rawBaseUrl owner repo_name (toPosix matched_icon_path))).2) := by
  unfold process_channel
  rw [hres]
  simp [hd]

theorem resolve_pool_path_congr (group_map icon_pool : List (String × String))
    (c c' : Channel) (h : c'.id = c.id) :
    resolve_pool_path group_map icon_pool c' = resolve_pool_path group_map icon_pool c := by
  unfold resolve_pool_path
  rw [h]

theorem process_channel_id_eq (group_map icon_pool : List (String × String))
    (pool_on_disk : String → Bool) (owner repo_name : String) (c : Channel) :
    (process_channel group_map icon_pool pool_on_disk owner repo_name c).1.id = c.id := by
  cases hres : resolve_pool_path group_map icon_pool c with
  | none => rw [process_channel_of_resolve_none _ _ _ _ _ _ hres]
  | some path =>
    cases hd : pool_on_disk path with
    | false => rw [process_channel_of_not_on_disk _ _ _ _ _ _ _ hres hd]
    | true => rw [process_channel_of_on_disk _ _ _ _ _ _ _ hres hd]

theorem process_channel_idem (group_map icon_pool : List (String × String))
    (pool_on_disk : String → Bool) (owner repo_name : String) (c : Channel) :
    process_channel group_map icon_pool pool_on_disk owner repo_name
        (process_channel group_map icon_pool pool_on_disk owner repo_name c).1 =
      ((process_channel group_map icon_pool pool_on_disk owner repo_name c).1, 0) := by
  have hid := process_channel_id_eq group_map icon_pool pool_on_disk owner repo_name c
  have hres2 := resolve_pool_path_congr group_map icon_pool c
    (process_channel group_map icon_pool pool_on_disk owner repo_name c).1 hid
  cases hres : resolve_pool_path group_map icon_pool c with
  | none =>
    rw [hres] at hres2
    rw [process_channel_of_resolve_none _ _ _ _ _ _ hres2]
  | some path =>
    rw [hres] at hres2
    cases hd : pool_on_disk path with
    | false => rw [process_channel_of_not_on_disk _ _ _ _ _ _ _ hres2 hd]
    | true =>
      rw [process_channel_of_on_disk _ _ _ _ _ _ _ hres hd] at hres2 ⊢
      rw [process_channel_of_on_disk _ _ _ _ _ _ _ hres2 hd]
      have hsi := set_icon_src_idem c.icons (rawBaseUrl owner repo_name (toPosix path))
      show ({ c with icons := (set_icon_src
              (set_icon_src c.icons (rawBaseUrl owner repo_name (toPosix path))).1
              (rawBaseUrl owner repo_name (toPosix path))).1 },
            (set_icon_src
              (set_icon_src c.icons (rawBaseUrl owner repo_name (toPosix path))).1
              (rawBaseUrl owner repo_name (toPosix path))).2) =
          (({ c with icons := (set_icon_src c.icons
              (rawBaseUrl owner repo_name (toPosix path))).1 } : Channel), 0)
      rw [hsi]

theorem process_channel_zero_iff (group_map icon_pool : List (String × String))
    (pool_on_disk : String → Bool) (owner repo_name : String) (c : Channel) :
    (process_channel group_map icon_pool pool_on_disk owner repo_name c).2 = 0 ↔
      (process_channel group_map icon_pool pool_on_disk owner repo_name c).1 = c := by
  cases hres : resolve_pool_path group_map icon_pool c with
  | none => rw [process_channel_of_resolve_none _ _ _ _ _ _ hres]; simp
  | some path =>
    cases hd : pool_on_disk path with
    | false => rw [process_channel_of_not_on_disk _ _ _ _ _ _ _ hres hd]; simp
    | true =>
      rw [process_channel_of_on_disk _ _ _ _ _ _ _ hres hd]
      rw [set_icon_src_zero_iff]
      constructor
      · intro h1
        show ({ c with icons := _ } : Channel) = c
        rw [h1]
      · intro hch
        exact congrArg Channel.icons hch

theorem process_epg_channels_idem (group_map icon_pool : List (String × String))
    (pool_on_disk : String → Bool) (owner repo_name : String) (channels : List Channel) :
    process_epg_channels group_map icon_pool pool_on_disk owner repo_name
        (process_epg_channels group_map icon_pool pool_on_disk owner repo_name channels).1 =
      ((process_epg_channels group_map icon_pool pool_on_disk owner repo_name channels).1, 0) := by
  by_cases hemp : (group_map.isEmpty || icon_pool.isEmpty) = true
  · simp [process_epg_channels, hemp]
  · rw [Bool.not_eq_true] at hemp
    have hstep : ∀ cs : List Channel,
        process_epg_channels group_map icon_pool pool_on_disk owner repo_name cs =
          (cs.map fun c =>
            (process_channel group_map icon_pool pool_on_disk owner repo_name c).1,
           (cs.map fun c =>
            (process_channel group_map icon_pool pool_on_disk owner repo_name c).2).sum) := by
      intro cs
      unfold process_epg_channels
      rw [hemp]
      simp
    rw [hstep, hstep]
    refine Prod.ext ?_ ?_
    · show (List.map _ (List.map _ channels) : List Channel) = _
      rw [List.map_map]
      apply List.map_congr_left
      intro c _
      simp only [Function.comp_apply]
      rw [process_channel_idem group_map icon_pool pool_on_disk owner repo_name c]
    · show (List.map _ (List.map _ channels)).sum = (0 : Nat)
      apply List.sum_eq_zero
      intro x hx
      rw [List.map_map] at hx
      rcases List.mem_map.mp hx with ⟨c, _, rfl⟩
      simp only [Function.comp_apply]
      rw [process_channel_idem group_map icon_pool pool_on_disk owner repo_name c]

theorem process_epg_file_idem (group_map icon_pool : List (String × String))
    (pool_on_disk : String → Bool) (owner repo_name : String) (channels : List Channel) :
    process_epg_file group_map icon_pool pool_on_disk owner repo_name
        (process_epg_file group_map icon_pool pool_on_disk owner repo_name channels) =
      process_epg_file group_map icon_pool pool_on_disk owner repo_name channels := by
  by_cases h : (process_epg_channels group_map icon_pool pool_on_disk owner repo_name
      channels).2 > 0
  · have h1 : process_epg_file group_map icon_pool pool_on_disk owner repo_name channels =
        (process_epg_channels group_map icon_pool pool_on_disk owner repo_name channels).1 := by
      simp [process_epg_file, h]
    rw [h1]
    have h2 := process_epg_channels_idem group_map icon_pool pool_on_disk owner repo_name
      channels
    simp [process_epg_file, h2]
  · have h1 : process_epg_file group_map icon_pool pool_on_disk owner repo_name channels =
        channels := by
      simp [process_epg_file, h]
    rw [h1]
    exact h1

/-- Claim C2: the rewriter touches a channel (and counts a change) exactly
when the first icon child src differs from the computed published URL, so a
second pass with the same resolved group map and icon pool makes zero
changes, returns the same channel list, and — since the file is rewritten
only when the change count is positive — leaves the file content untouched.
The final conjunct is the per-tag update-iff-differs guarantee. -/
theorem C2_rewrite_idempotent (group_map icon_pool : List (String × String))
    (pool_on_disk : String → Bool) (owner repo_name : String)
    (channels : List Channel) (c : Channel) (icons : List IconTag) (u : String) :
    (process_epg_channels group_map icon_pool pool_on_disk owner repo_name
        (process_epg_channels group_map icon_pool pool_on_disk owner repo_name
          channels).1).2 = 0 ∧
    (process_epg_channels group_map icon_pool pool_on_disk owner repo_name
        (process_epg_channels group_map icon_pool pool_on_disk owner repo_name
          channels).1).1 =
      (process_epg_channels group_map icon_pool pool_on_disk owner repo_name channels).1 ∧
    process_epg_file group_map icon_pool pool_on_disk owner repo_name
        (process_epg_file group_map icon_pool pool_on_disk owner repo_name channels) =
      process_epg_file group_map icon_pool pool_on_disk owner repo_name channels ∧
    ((process_channel group_map icon_pool pool_on_disk owner repo_name c).2 = 0 ↔
      (process_channel group_map icon_pool pool_on_disk owner repo_name c).1 = c) ∧
    ((set_icon_src icons u).1 = icons ↔ icons.head?.bind IconTag.src = some u) := by
  refine ⟨?_, ?_, ?_, ?_, ?_⟩
  · rw [process_epg_channels_idem group_map icon_pool pool_on_disk owner repo_name channels]
  · rw [process_epg_channels_idem group_map icon_pool pool_on_disk owner repo_name channels]
  · exact process_epg_file_idem group_map icon_pool pool_on_disk owner repo_name channels
  · exact process_channel_zero_iff group_map icon_pool pool_on_disk owner repo_name c
  · exact set_icon_src_unchanged_iff icons u

/-- Claim C10: a channel whose id resolves through the group map and icon
pool to a pool file that is absent from disk is left entirely unchanged by
the rewriter: the channel value (including its icon children) is returned
as-is and it contributes zero to the changes-made total. -/
theorem C10_missing_pool_file (group_map icon_pool : List (String × String))
    (pool_on_disk : String → Bool) (owner repo_name : String) (c : Channel)
    (channel_id icon_url pool_path : String)
    (hid : c.id = some channel_id)
    (hgm : group_map.lookup channel_id = some icon_url)
    (hne : icon_url ≠ "")
    (hpool : icon_pool.lookup icon_url = some pool_path)
    (hdisk : pool_on_disk pool_path = false) :
    process_channel group_map icon_pool pool_on_disk owner repo_name c = (c, 0) := by
  have hres : resolve_pool_path group_map icon_pool c = some pool_path := by
    unfold resolve_pool_path
    rw [hid]
    simp [hgm, hne, hpool]
  exact process_channel_of_not_on_disk group_map icon_pool pool_on_disk owner repo_name c
    pool_path hres hdisk

/-- Witness for C10 at a concrete input: a channel mapped to a pool file
that is not on disk is returned unchanged with zero changes. -/
theorem C10_witness :
    process_channel [("c1", "u1")] [("u1", "icons/pool/h.png")] (fun _ => false) "o" "r"
      ⟨some "c1", []⟩ = (⟨some "c1", []⟩, 0) :=
  C10_missing_pool_file [("c1", "u1")] [("u1", "icons/pool/h.png")] (fun _ => false) "o" "r"
    ⟨some "c1", []⟩ "c1" "u1" "icons/pool/h.png" rfl (by decide) (by decide) (by decide) rfl

/-! ## Python string and pathlib helpers

String-level models of the CPython operations the script uses, implemented
structurally over the character list so that concrete instances evaluate:
str.lower (ASCII range, which covers every filename the script builds),
str.endswith, slicing off a fixed number of trailing characters, str.split
on a separator character, and the pathlib properties PurePath.suffix,
PurePath.stem, PurePath.suffixes (on a bare file name) and Path.name (on a
POSIX-style path string). -/

/-- Python str.lower, character-wise (ASCII case mapping). -/
def strToLower (s : String) : String := String.mk (s.data.map Char.toLower)

/-- Python str.endswith. -/
def strEndsWith (s pat : String) : Bool := pat.data.isSuffixOf s.data

/-- Python slicing s[:-n] for n at most the length: drop the last n
characters. -/
def strDropRight (s : String) (n : Nat) : String :=
  String.mk (s.data.take (s.data.length - n))

/-- Split a character list at its last dot: the characters before and after
it, or nothing when no dot occurs. -/
def splitLastDot : List Char → Option (List Char × List Char)
  | [] => none
  | c :: cs =>
    match splitLastDot cs with
    | some p => some (c :: p.1, p.2)
    | none => if c = '.' then some ([], cs) else none

/-- PurePath.suffix: the final component from its last dot on, empty when the
last dot is absent, leading, or trailing. -/
def nameSuffix (name : String) : String :=
  match splitLastDot name.data with
  | some p => if p.1 ≠ [] ∧ p.2 ≠ [] then String.mk ('.' :: p.2) else ""
  | none => ""

/-- PurePath.stem: the name with its suffix (when any) removed. -/
def nameStem (name : String) : String :=
  match splitLastDot name.data with
  | some p => if p.1 ≠ [] ∧ p.2 ≠ [] then String.mk p.1 else name
  | none => name

/-- Python str.split on a one-character separator. -/
def splitOnChar (sep : Char) : List Char → List (List Char)
  | [] => [[]]
  | c :: cs =>
    let r := splitOnChar sep cs
    if c = sep then [] :: r
    else
      match r with
      | [] => [[c]]
      | h :: t => (c :: h) :: t

/-- PurePath.suffixes: empty for a name ending in a dot, else one entry per
dot-separated part after the first, leading dots stripped first. -/
def nameSuffixes (name : String) : List String :=
  if strEndsWith name "." then []
  else
    ((splitOnChar '.' (name.data.dropWhile (· = '.'))).drop 1).map fun s =>
      String.mk ('.' :: s)

/-- Path.name on a POSIX-style path string: the last component, with empty
and single-dot components dropped (pathlib normalization). -/
def pathName (p : String) : String :=
  String.mk ((((splitOnChar '/' p.data).filter fun comp =>
    !(comp.isEmpty || comp == ['.'])).getLastD []))

/-! ## Gzip-aware write-back (process_epg_file, lines 418-443) -/

/-- Lines 419-423: the internal filename for the gzip archive written back:
the source URL basename with a trailing .gz (case-insensitively) stripped,
and with .xml appended in every other case. -/
def archive_internal_name (original_filename : String) : String :=
  if strEndsWith (strToLower original_filename) ".gz" then strDropRight original_filename 3
  else original_filename ++ ".xml"

/-- The gzip header fields the writer controls. -/
structure GzipHeader where
  filename : String
  mtime : Nat
  deriving DecidableEq

/-- Lines 437-443: gzip.GzipFile is constructed with
filename=archive_internal_name and mtime=0. -/
def gzip_writeback_header (original_filename : String) : GzipHeader :=
  { filename := archive_internal_name original_filename, mtime := 0 }

/-- Modelled from the spec: the internal filename as claim C3 states it —
the basename with a trailing .gz stripped when present, and with .xml
appended only when the source basename had no extension at all. -/
def spec_internal_name (original_filename : String) : String :=
  if strEndsWith (strToLower original_filename) ".gz" then strDropRight original_filename 3
  else if nameSuffixes original_filename = [] then original_filename ++ ".xml"
  else original_filename

/-- Counterexample to claim C3 as stated: for a gzip-framed feed fetched
from a URL whose basename is guide.xml (magic-byte detection makes the
framing independent of the extension), the code stores guide.xml.xml as the
internal filename, while the claim prescribes guide.xml because the
basename already has an extension. -/
theorem C3_counterexample :
    archive_internal_name "guide.xml" = "guide.xml.xml" ∧
    spec_internal_name "guide.xml" = "guide.xml" ∧
    archive_internal_name "guide.xml" ≠ spec_internal_name "guide.xml" := by
  refine ⟨?_, ?_, ?_⟩ <;> decide

/-- Claim C3 (amended): on write-back of a gzip feed the stored modification
time is the constant zero, and the internal filename is the source basename
with a trailing .gz (case-insensitive) stripped when present and with .xml
appended in every other case (even when the basename already carries another
extension). -/
theorem C3_gzip_header (original_filename : String) :
    (gzip_writeback_header original_filename).mtime = 0 ∧
    (strEndsWith (strToLower original_filename) ".gz" = true →
      (gzip_writeback_header original_filename).filename =
        strDropRight original_filename 3) ∧
    (strEndsWith (strToLower original_filename) ".gz" = false →
      (gzip_writeback_header original_filename).filename =
        original_filename ++ ".xml") := by
  refine ⟨rfl, ?_, ?_⟩
  · intro h
    simp [gzip_writeback_header, archive_internal_name, h]
  · intro h
    simp [gzip_writeback_header, archive_internal_name, h]

/-- Witness for C3 at concrete inputs: both branches of the amended claim. -/
theorem C3_witness :
    (gzip_writeback_header "epg.xml.gz").filename = "epg.xml" ∧
    (gzip_writeback_header "guide").filename = "guide.xml" ∧
    (gzip_writeback_header "guide").mtime = 0 := by
  refine ⟨?_, ?_, (C3_gzip_header "guide").1⟩
  · have h := (C3_gzip_header "epg.xml.gz").2.1 (by decide)
    rw [h]
    decide
  · have h := (C3_gzip_header "guide").2.2 (by decide)
    rw [h]
    decide

/-! ## Icon map store (CustomEncoder lines 68-75, save lines 336-338,
load lines 345-365)

Python dicts are modelled as association lists (url, value) with first-match
lookup; a Path object is modelled by its normalized forward-slash string
form. -/

/-- A Python pathlib Path value, represented by its normalized string form
(forward slashes). -/
structure PyPath where
  posix : String
  deriving DecidableEq

/-- One groups entry: the dict holding the per-group icon_map. -/
structure IconGroup where
  icon_map : List (String × String)
  deriving DecidableEq

/-- The in-memory icon_data aggregate (lines 224-228): pool values are Path
objects, group maps send channel ids to icon URLs, source_to_group sends a
feed URL to its signature or None. -/
structure IconDataMem where
  icon_pool : List (String × PyPath)
  groups : List (String × IconGroup)
  source_to_group : List (String × Option String)
  deriving DecidableEq

/-- The JSON image of the aggregate as stored in icons_map.json: pool values
are plain strings. -/
structure IconDataJson where
  icon_pool : List (String × String)
  groups : List (String × IconGroup)
  source_to_group : List (String × Option String)
  deriving DecidableEq

/-- CustomEncoder.default on a Path (lines 71-72): its string form with
backslashes replaced by forward slashes. -/
def encodePath (p : PyPath) : String := toPosix p.posix

/-- CustomEncoder.default on a set (lines 73-74): list(obj), materializing
the set as a list (one enumeration order). -/
def encodeSet (s : Finset String) : List String := s.sort (· ≤ ·)

/-- json.dump with cls=CustomEncoder (lines 337-338): every pool Path value
is serialized through the encoder; groups and source_to_group already hold
JSON-native values (strings and None). -/
def save_icon_data (d : IconDataMem) : IconDataJson :=
  { icon_pool := d.icon_pool.map fun kv => (kv.1, encodePath kv.2)
    groups := d.groups
    source_to_group := d.source_to_group }

/-- json.load followed by rehydration (lines 353-357): every icon_pool value
is wrapped back into a Path; groups and source_to_group are taken verbatim. -/
def load_icon_data (j : IconDataJson) : IconDataMem :=
  { icon_pool := j.icon_pool.map fun kv => (kv.1, PyPath.mk kv.2)
    groups := j.groups
    source_to_group := j.source_to_group }

/-- The aggregate with its pool path values normalized to forward-slash
form. -/
def normalize_paths (d : IconDataMem) : IconDataMem :=
  { d with icon_pool := d.icon_pool.map fun kv => (kv.1, PyPath.mk (toPosix kv.2.posix)) }

/-- Claim C4: saving an IconMap aggregate and loading it back reproduces an
equivalent structure — equal to the original after its path values are
normalized to forward-slash Path form; groups and source_to_group round-trip
verbatim, loaded pool values are Path objects again, and the encoder
materializes set values as lists with the same membership. -/
theorem C4_icon_map_roundtrip (d : IconDataMem) (s : Finset String) (x : String) :
    load_icon_data (save_icon_data d) = normalize_paths d ∧
    (load_icon_data (save_icon_data d)).groups = d.groups ∧
    (load_icon_data (save_icon_data d)).source_to_group = d.source_to_group ∧
    (x ∈ encodeSet s ↔ x ∈ s) := by
  refine ⟨?_, rfl, rfl, Finset.mem_sort _⟩
  simp [load_icon_data, save_icon_data, normalize_paths, encodePath]

/-! ## Feed fetcher (download_one, lines 104-153) -/

/-- A configured feed source entry: its url and description. -/
structure FeedEntry where
  url : String
  desc : String
  deriving DecidableEq

/-- What the network produces for one feed request: a raised connection
error, a raised timeout, or a response with a status code and body bytes. -/
inductive HttpEvent where
  | connectionError (msg : String)
  | timeout (msg : String)
  | response (status : Nat) (body : List Nat)
  deriving DecidableEq

/-- requests raise_for_status: status codes in the 4xx and 5xx ranges raise
an HTTPError. -/
def raise_for_status (status : Nat) : Except String Unit :=
  if 400 ≤ status ∧ status < 600 then Except.error "HTTPError" else Except.ok ()

/-- The try body of download_one (lines 110-146): a connection error or
timeout propagates as an exception; otherwise the status is checked, the
body is streamed to the staging file, and a zero-byte result raises
ValueError (line 140).  On success the byte count is returned. -/
def fetch_body (ev : HttpEvent) : Except String Nat :=
  match ev with
  | .connectionError msg => Except.error msg
  | .timeout msg => Except.error msg
  | .response status body =>
    match raise_for_status status with
    | Except.error e => Except.error e
    | Except.ok _ =>
      if body.length = 0 then Except.error "Файл пустой."
      else Except.ok body.length

/-- The observable outcome of download_one: the result dict (entry
back-reference, typed error or byte size) plus whether the staging temp file
still exists afterwards. -/
structure FetchResult where
  entry : FeedEntry
  error : Option String
  size_bytes : Option Nat
  temp_exists : Bool
  deriving DecidableEq

/-- download_one (lines 104-153): every exception from the body is caught
(line 148) and turned into a typed error string on the result; the staging
file is removed on failure (lines 151-152) and kept on success. -/
def download_one (entry : FeedEntry) (ev : HttpEvent) : FetchResult :=
  match fetch_body ev with
  | Except.ok n =>
    { entry := entry, error := none, size_bytes := some n, temp_exists := true }
  | Except.error e =>
    { entry := entry, error := some ("Ошибка загрузки: " ++ e), size_bytes := none,
      temp_exists := false }

/-- Claim C7: download_one is total on every network outcome (exceptions are
caught, never re-raised), the result always maps back to its originating
entry, the staging file survives exactly the successful fetches, and the
error field is empty exactly when the event was a response with a
non-error status and a non-empty body — network errors, timeouts, HTTP error
statuses and empty bodies all surface as a typed error string. -/
theorem C7_fetch_failures_recorded (entry : FeedEntry) (ev : HttpEvent) :
    (download_one entry ev).entry = entry ∧
    (download_one entry ev).temp_exists = (download_one entry ev).error.isNone ∧
    ((download_one entry ev).error = none ↔
      ∃ status body, ev = HttpEvent.response status body ∧
        ¬(400 ≤ status ∧ status < 600) ∧ body ≠ []) := by
  refine ⟨?_, ?_, ?_⟩
  · cases ev <;> simp only [download_one, fetch_body, raise_for_status] <;>
      repeat' first | split | rfl
  · cases ev <;> simp only [download_one, fetch_body, raise_for_status] <;>
      repeat' first | split | rfl
  · cases ev with
    | connectionError msg => simp [download_one, fetch_body]
    | timeout msg => simp [download_one, fetch_body]
    | response status body =>
      by_cases hs : 400 ≤ status ∧ status < 600
      · simp only [download_one, fetch_body, raise_for_status, hs, if_true]
        constructor
        · intro hcontra
          exact absurd hcontra (by simp)
        · rintro ⟨s, b, heq, hns, hb⟩
          rcases HttpEvent.response.inj heq with ⟨rfl, rfl⟩
          exact absurd hs hns
      · simp only [download_one, fetch_body, raise_for_status, hs, if_false]
        by_cases hb : body.length = 0
        · rw [List.length_eq_zero] at hb
          subst hb
          simp
        · have hbne : body ≠ [] := by
            intro hcontra
            subst hcontra
            exact hb rfl
          simp only [hb, if_false]
          constructor
          · intro _
            exact ⟨status, body, rfl, hs, hbne⟩
          · intro _
            trivial

/-! ## Icon map load for the daily mode (lines 345-365) and the stage-3
gate (line 550) -/

/-- The state of icons_map.json on disk when the daily update starts. -/
inductive MapFile where
  | missing
  | corrupt (raw : String)
  | wellFormed (content : IconDataJson)

/-- The observable outcome of load_icon_data_for_daily_update: the returned
icon data (None on failure) and whether the load-error message was printed
(line 364). -/
structure LoadOutcome where
  icon_data : Option IconDataMem
  error_logged : Bool
  deriving DecidableEq

/-- load_icon_data_for_daily_update (lines 345-365): a missing file returns
None with only an informational note (lines 348-351); any exception from
json.load or rehydration is caught, logged loudly, and still returns None
(lines 363-365); a well-formed file is loaded and rehydrated. -/
def load_icon_data_for_daily_update : MapFile → LoadOutcome
  | MapFile.missing => { icon_data := none, error_logged := false }
  | MapFile.corrupt _ => { icon_data := none, error_logged := true }
  | MapFile.wellFormed j => { icon_data := some (load_icon_data j), error_logged := false }

/-- Line 550: stage 3 (icon rewriting) runs only when icon_data is truthy. -/
def stage3_icon_rewriting_runs (lo : LoadOutcome) : Bool := lo.icon_data.isSome

/-- Claim C8: loading the persisted icon map returns no map when the file
does not exist — without logging an error, a legitimate first-run state —
and returns no map with a loud error log on a structurally corrupt file;
in both cases the function returns instead of raising, and the daily run
degrades to performing no icon rewriting (the stage-3 gate is closed);
a well-formed file loads to the rehydrated aggregate. -/
theorem C8_map_load_degrades (raw : String) (j : IconDataJson) :
    (load_icon_data_for_daily_update MapFile.missing).icon_data = none ∧
    (load_icon_data_for_daily_update MapFile.missing).error_logged = false ∧
    (load_icon_data_for_daily_update (MapFile.corrupt raw)).icon_data = none ∧
    (load_icon_data_for_daily_update (MapFile.corrupt raw)).error_logged = true ∧
    stage3_icon_rewriting_runs (load_icon_data_for_daily_update (MapFile.corrupt raw)) =
      false ∧
    stage3_icon_rewriting_runs (load_icon_data_for_daily_update MapFile.missing) = false ∧
    (load_icon_data_for_daily_update (MapFile.wellFormed j)).icon_data =
      some (load_icon_data j) := by
  exact ⟨rfl, rfl, rfl, rfl, rfl, rfl, rfl⟩

/-! ## Icon pool builder (perform_full_update, lines 272-288) -/

/-- Lines 278-281: the pool path assigned to an icon URL: the pool directory,
the hex sha1 of the URL, and the joined suffixes of the URL path (or .png
when the path has none).  sha1 abstracts hashlib.sha1(url).hexdigest() and
url_path abstracts urlparse(url).path, both pure stdlib functions of the
URL. -/
def pool_path_for (sha1 url_path : String → String) (url : String) : String :=
  let url_hash := sha1 url
  let sfx := nameSuffixes (pathName (url_path url))
  let original_ext := if sfx = [] then ".png" else String.join sfx
  "icons/pool/" ++ url_hash ++ original_ext

/-- Line 283: the icon_pool mapping built over the unique URL set (one entry
per URL, in iteration order). -/
def build_icon_pool (sha1 url_path : String → String) (all_unique_urls : List String) :
    List (String × String) :=
  all_unique_urls.map fun url => (url, pool_path_for sha1 url_path url)

/-- Lines 284-286: the urls_to_download mapping: exactly the URLs whose pool
path does not already exist on disk. -/
def urls_to_download (sha1 url_path : String → String) (pool_on_disk : String → Bool)
    (all_unique_urls : List String) : List (String × String) :=
  all_unique_urls.filterMap fun url =>
    let p := pool_path_for sha1 url_path url
    if pool_on_disk p then none else some (url, p)

theorem lookup_map_self {β : Type} (f : String → β) (l : List String) (url : String)
    (h : url ∈ l) : (l.map fun u => (u, f u)).lookup url = some (f url) := by
  induction l with
  | nil => exact absurd h (List.not_mem_nil url)
  | cons v rest ih =>
    rcases List.mem_cons.mp h with rfl | hmem
    · simp [List.lookup]
    · by_cases hv : url = v
      · subst hv
        simp [List.lookup]
      · have hbeq : (url == v) = false := beq_false_of_ne hv
        simp [List.lookup, hbeq, ih hmem]

/-- Claim C5: the pool filename is a pure function of the URL alone — the
pool entry assigned to a URL is the same in any two runs over any two URL
sets containing it, being the hash of the URL plus the joined original
extension of the URL path (or .png when the path has none) — and a URL whose
pool file already exists on disk never enters the download set. -/
theorem C5_pool_filename_stable (sha1 url_path : String → String)
    (pool_on_disk : String → Bool) (urls1 urls2 : List String) (url : String)
    (h1 : url ∈ urls1) (h2 : url ∈ urls2) :
    (build_icon_pool sha1 url_path urls1).lookup url =
      some (pool_path_for sha1 url_path url) ∧
    (build_icon_pool sha1 url_path urls2).lookup url =
      some (pool_path_for sha1 url_path url) ∧
    (pool_on_disk (pool_path_for sha1 url_path url) = true →
      ∀ p, (url, p) ∉ urls_to_download sha1 url_path pool_on_disk urls1) ∧
    pool_path_for sha1 url_path url =
      "icons/pool/" ++ sha1 url ++
        (if nameSuffixes (pathName (url_path url)) = [] then ".png"
         else String.join (nameSuffixes (pathName (url_path url)))) := by
  refine ⟨lookup_map_self _ urls1 url h1, lookup_map_self _ urls2 url h2, ?_, rfl⟩
  intro hdisk p hmem
  rcases List.mem_filterMap.mp hmem with ⟨v, _, hv⟩
  by_cases hd : pool_on_disk (pool_path_for sha1 url_path v)
  · rw [if_pos hd] at hv
    exact Option.noConfusion hv
  · rw [if_neg hd] at hv
    have hveq : v = url := congrArg Prod.fst (Option.some.inj hv)
    rw [hveq] at hd
    exact hd hdisk

/-- Witness for C5 at a concrete input: the hash and url-path parameters are
instantiated with identities, so the pool entry of the URL is its own text
followed by its extension, and a URL already on disk is excluded from the
download set. -/
theorem C5_witness :
    (build_icon_pool (fun s => s) (fun s => s) ["http://x/a.png"]).lookup "http://x/a.png" =
      some "icons/pool/http://x/a.png.png" ∧
    ("http://x/a.png", "icons/pool/http://x/a.png.png") ∉
      urls_to_download (fun s => s) (fun s => s) (fun _ => true) ["http://x/a.png"] := by
  have h := C5_pool_filename_stable (fun s => s) (fun s => s) (fun _ => true)
    ["http://x/a.png"] ["http://x/a.png"] "http://x/a.png"
    (by simp) (by simp)
  constructor
  · have h1 := h.1
    have hval : pool_path_for (fun s => s) (fun s => s) "http://x/a.png" =
        "icons/pool/http://x/a.png.png" := by decide
    rw [hval] at h1
    exact h1
  · exact h.2.2.1 rfl "icons/pool/http://x/a.png.png"

/-! ## Publisher finalization (main, lines 588-618)

The f-string rendering of the collision counter is modelled by a structural
decimal printer. -/

/-- Decimal digit character for a value below ten. -/
def decDigit (n : Nat) : Char := Char.ofNat (48 + n)

/-- Fuel-driven decimal digit expansion, most significant digit first. -/
def decDigitsCore : Nat → Nat → List Char
  | 0, _ => []
  | fuel + 1, n =>
    if n < 10 then [decDigit n]
    else decDigitsCore fuel (n / 10) ++ [decDigit (n % 10)]

/-- The decimal digit list of a natural number. -/
def decDigits (n : Nat) : List Char := decDigitsCore (n + 1) n

/-- The decimal string of a natural number: models Python str(counter). -/
def decRepr (n : Nat) : String := String.mk (decDigits n)

theorem decDigitsCore_fuel (fuel1 : Nat) :
    ∀ fuel2 n, n < fuel1 → n < fuel2 → decDigitsCore fuel1 n = decDigitsCore fuel2 n := by
  induction fuel1 with
  | zero =>
    intro fuel2 n h1 _
    exact absurd h1 (Nat.not_lt_zero n)
  | succ f1 ih =>
    intro fuel2 n h1 h2
    cases fuel2 with
    | zero => exact absurd h2 (Nat.not_lt_zero n)
    | succ f2 =>
      by_cases hn : n < 10
      · simp [decDigitsCore, hn]
      · simp only [decDigitsCore, hn, if_false]
        congr 1
        have hdiv : n / 10 < n := Nat.div_lt_self (by omega) (by omega)
        exact ih f2 (n / 10) (by omega) (by omega)

theorem decDigits_eq (n : Nat) :
    decDigits n =
      if n < 10 then [decDigit n] else decDigits (n / 10) ++ [decDigit (n % 10)] := by
  show decDigitsCore (n + 1) n = _
  by_cases hn : n < 10
  · simp [decDigitsCore, hn]
  · simp only [decDigitsCore, hn, if_false]
    congr 1
    have hdiv : n / 10 < n := Nat.div_lt_self (by omega) (by omega)
    exact decDigitsCore_fuel n (n / 10 + 1) (n / 10) (by omega) (by omega)

theorem decDigits_ne_nil (n : Nat) : decDigits n ≠ [] := by
  rw [decDigits_eq]
  split <;> simp

theorem decDigit_inj {a b : Nat} (ha : a < 10) (hb : b < 10) (h : decDigit a = decDigit b) :
    a = b := by
  interval_cases a <;> interval_cases b <;> revert h <;> decide

theorem decDigits_inj : ∀ m n : Nat, decDigits m = decDigits n → m = n := by
  intro m
  induction m using Nat.strong_induction_on with
  | _ m ih =>
    intro n h
    rw [decDigits_eq m, decDigits_eq n] at h
    by_cases hm : m < 10 <;> by_cases hn : n < 10
    · rw [if_pos hm, if_pos hn] at h
      have hd : decDigit m = decDigit n := by injection h
      exact decDigit_inj hm hn hd
    · rw [if_pos hm, if_neg hn] at h
      have hlen := congrArg List.length h
      simp only [List.length_append, List.length_cons, List.length_nil] at hlen
      have h0 : (decDigits (n / 10)).length = 0 := by omega
      exact absurd (List.length_eq_zero.mp h0) (decDigits_ne_nil (n / 10))
    · rw [if_neg hm, if_pos hn] at h
      have hlen := congrArg List.length h
      simp only [List.length_append, List.length_cons, List.length_nil] at hlen
      have h0 : (decDigits (m / 10)).length = 0 := by omega
      exact absurd (List.length_eq_zero.mp h0) (decDigits_ne_nil (m / 10))
    · rw [if_neg hm, if_neg hn] at h
      obtain ⟨h1, h2⟩ := List.append_inj' h rfl
      have hd : decDigit (m % 10) = decDigit (n % 10) := by injection h2
      have hmod : m % 10 = n % 10 :=
        decDigit_inj (Nat.mod_lt _ (by omega)) (Nat.mod_lt _ (by omega)) hd
      have hdivlt : m / 10 < m := Nat.div_lt_self (by omega) (by omega)
      have hdiv : m / 10 = n / 10 := ih (m / 10) hdivlt (n / 10) h1
      omega

theorem decRepr_inj {a b : Nat} (h : decRepr a = decRepr b) : a = b :=
  decDigits_inj a b (congrArg String.data h)

theorem decRepr_length_pos (n : Nat) : 0 < (decRepr n).length := by
  show 0 < (decDigits n).length
  cases hdd : decDigits n with
  | nil => exact absurd hdd (decDigits_ne_nil n)
  | cons c cs => simp

/-- Lines 614-616: the collision candidate name for one counter value: the
stem of the proposed filename, a dash, the counter, and the joined suffixes
of the proposed filename. -/
def collision_candidate (proposed_filename : String) (counter : Nat) : String :=
  nameStem proposed_filename ++ "-" ++ decRepr counter ++
    String.join (nameSuffixes proposed_filename)

/-- The body of the while loop of lines 613-617, driven by fuel: try
successive counter values until the candidate avoids used_names. -/
def find_free_name_loop (used_names : List String) (proposed_filename : String) :
    Nat → Nat → String
  | 0, counter => collision_candidate proposed_filename counter
  | fuel + 1, counter =>
    let final_name := collision_candidate proposed_filename counter
    if final_name ∈ used_names then
      find_free_name_loop used_names proposed_filename fuel (counter + 1)
    else final_name

/-- Lines 612-618: the final name for a proposed filename against the names
already used: the proposal itself when free, else the first free collision
candidate counting from 1.  The fuel bound used_names.length + 1 exceeds the
number of possible collisions (candidates are pairwise distinct), so the
loop always returns before exhausting it. -/
def find_free_name (used_names : List String) (proposed_filename : String) : String :=
  if proposed_filename ∈ used_names then
    find_free_name_loop used_names proposed_filename (used_names.length + 1) 1
  else proposed_filename

/-- Lines 603-609: the proposed published filename: the URL basename, with
an extension inferred from the content (gzip or plain) appended when the
basename has no suffix. -/
def proposed_filename_of (url_basename : String) (gzipped : Bool) : String :=
  if nameSuffix url_basename = "" then
    url_basename ++ (if gzipped then ".xml.gz" else ".xml")
  else url_basename

/-- Lines 595-618: the finalization pass in configuration order: each
successfully fetched feed claims its final name, which joins used_names for
the feeds after it. -/
def assign_final_names : List String → List String → List String
  | [], _ => []
  | p :: rest, used_names =>
    let final_name := find_free_name used_names p
    final_name :: assign_final_names rest (final_name :: used_names)

/-- The used_names set after j collisions of one proposal: the candidates j
down to 1, then the proposal itself. -/
def used_after (proposed_filename : String) : Nat → List String
  | 0 => [proposed_filename]
  | j + 1 => collision_candidate proposed_filename (j + 1) :: used_after proposed_filename j

theorem collision_candidate_inj (P : String) {a b : Nat}
    (h : collision_candidate P a = collision_candidate P b) : a = b := by
  have hd := congrArg String.data h
  simp only [collision_candidate, String.data_append, List.append_assoc] at hd
  have h1 := List.append_cancel_left hd
  have h2 := List.append_cancel_left h1
  have h3 := List.append_cancel_right h2
  exact decDigits_inj a b h3

theorem splitLastDot_eq (l : List Char) :
    ∀ a b, splitLastDot l = some (a, b) → l = a ++ '.' :: b := by
  induction l with
  | nil =>
    intro a b h
    simp [splitLastDot] at h
  | cons c cs ih =>
    intro a b h
    cases hrec : splitLastDot cs with
    | some p =>
      simp only [splitLastDot, hrec] at h
      have h1 := Option.some.inj h
      have ha : c :: p.1 = a := congrArg Prod.fst h1
      have hb : p.2 = b := congrArg Prod.snd h1
      subst ha
      subst hb
      rw [List.cons_append, ih p.1 p.2 hrec]
    | none =>
      simp only [splitLastDot, hrec] at h
      by_cases hc : c = '.'
      · rw [if_pos hc] at h
        have h1 := Option.some.inj h
        have ha : ([] : List Char) = a := congrArg Prod.fst h1
        have hb : cs = b := congrArg Prod.snd h1
        subst ha
        subst hb
        rw [List.nil_append, hc]
      · rw [if_neg hc] at h
        exact Option.noConfusion h

theorem collision_candidate_ne_base (P : String) (k : Nat) :
    collision_candidate P k ≠ P := by
  intro h
  cases hsplit : splitLastDot P.data with
  | none =>
    simp only [collision_candidate, nameStem, hsplit] at h
    have hl := congrArg String.length h
    simp only [String.length_append, show ("-" : String).length = 1 from rfl] at hl
    omega
  | some p =>
    by_cases hab : p.1 ≠ [] ∧ p.2 ≠ []
    · have hP : P.data = p.1 ++ '.' :: p.2 := splitLastDot_eq P.data p.1 p.2 hsplit
      simp only [collision_candidate, nameStem, hsplit] at h
      rw [if_pos hab] at h
      have hd := congrArg String.data h
      simp only [String.data_append, List.append_assoc] at hd
      rw [hP] at hd
      have h2 := List.append_cancel_left hd
      rw [List.singleton_append] at h2
      injection h2 with h3 h4
      exact absurd h3 (by decide)
    · simp only [collision_candidate, nameStem, hsplit] at h
      rw [if_neg hab] at h
      have hl := congrArg String.length h
      simp only [String.length_append, show ("-" : String).length = 1 from rfl] at hl
      omega

theorem mem_used_after (P : String) (j : Nat) (x : String) :
    x ∈ used_after P j ↔
      x = P ∨ ∃ i, 1 ≤ i ∧ i ≤ j ∧ x = collision_candidate P i := by
  induction j with
  | zero =>
    simp only [used_after, List.mem_singleton]
    constructor
    · intro h
      exact Or.inl h
    · rintro (h | ⟨i, h1, h2, _⟩)
      · exact h
      · omega
  | succ j ih =>
    simp only [used_after, List.mem_cons, ih]
    constructor
    · rintro (rfl | h | ⟨i, h1, h2, rfl⟩)
      · exact Or.inr ⟨j + 1, by omega, by omega, rfl⟩
      · exact Or.inl h
      · exact Or.inr ⟨i, h1, by omega, rfl⟩
    · rintro (h | ⟨i, h1, h2, rfl⟩)
      · exact Or.inr (Or.inl h)
      · by_cases hij : i = j + 1
        · subst hij
          exact Or.inl rfl
        · exact Or.inr (Or.inr ⟨i, h1, by omega, rfl⟩)

theorem used_after_length (P : String) (j : Nat) : (used_after P j).length = j + 1 := by
  induction j with
  | zero => rfl
  | succ j ih => simp [used_after, ih]

theorem base_mem_used_after (P : String) (j : Nat) : P ∈ used_after P j :=
  (mem_used_after P j P).mpr (Or.inl rfl)

theorem cand_mem_used_after (P : String) (j i : Nat) (h1 : 1 ≤ i) (h2 : i ≤ j) :
    collision_candidate P i ∈ used_after P j :=
  (mem_used_after P j _).mpr (Or.inr ⟨i, h1, h2, rfl⟩)

theorem cand_succ_not_mem_used_after (P : String) (j : Nat) :
    collision_candidate P (j + 1) ∉ used_after P j := by
  intro hmem
  rcases (mem_used_after P j _).mp hmem with h | ⟨i, h1, h2, heq⟩
  · exact collision_candidate_ne_base P (j + 1) h
  · have := collision_candidate_inj P heq
    omega

theorem find_free_name_loop_spec (P : String) (j : Nat) (fuel : Nat) :
    ∀ c, 1 ≤ c → c ≤ j + 1 → j + 1 - c < fuel →
      find_free_name_loop (used_after P j) P fuel c = collision_candidate P (j + 1) := by
  induction fuel with
  | zero =>
    intro c _ _ hf
    omega
  | succ fuel ih =>
    intro c h1 h2 hf
    by_cases hc : c = j + 1
    · subst hc
      have hnm := cand_succ_not_mem_used_after P j
      simp [find_free_name_loop, hnm]
    · have hcj : c ≤ j := by omega
      have hmem := cand_mem_used_after P j c h1 hcj
      simp only [find_free_name_loop, hmem, if_true]
      exact ih (c + 1) (by omega) (by omega) (by omega)

theorem find_free_name_used_after (P : String) (j : Nat) :
    find_free_name (used_after P j) P = collision_candidate P (j + 1) := by
  unfold find_free_name
  rw [if_pos (base_mem_used_after P j), used_after_length]
  exact find_free_name_loop_spec P j (j + 1 + 1) 1 (by omega) (by omega) (by omega)

theorem assign_replicate_aux (P : String) (n : Nat) :
    ∀ j, assign_final_names (List.replicate n P) (used_after P j) =
      (List.range n).map fun i => collision_candidate P (j + 1 + i) := by
  induction n with
  | zero =>
    intro j
    simp [assign_final_names]
  | succ n ih =>
    intro j
    rw [List.replicate_succ]
    simp only [assign_final_names]
    rw [find_free_name_used_after P j]
    show collision_candidate P (j + 1) ::
        assign_final_names (List.replicate n P) (used_after P (j + 1)) = _
    rw [ih (j + 1), List.range_succ_eq_map, List.map_cons, List.map_map]
    congr 1
    apply List.map_congr_left
    intro i _
    show collision_candidate P (j + 1 + 1 + i) = collision_candidate P (j + 1 + (i + 1))
    congr 1
    omega

/-- Claim C6 (amended): published filenames are derived from each source URL
basename, with the extension inferred from content (gzip or plain) exactly
when the basename has no suffix; when several successfully fetched feeds
resolve to the same proposed filename, the first keeps the name and the k-th
collision receives the name built from the pathlib stem of the proposal, a
dash, the counter k, and the joined pathlib suffixes of the proposal,
deterministically in original configuration input order.  For ordinary
single-extension basenames such as guide.xml this places the dash counter
before the extension (guide-1.xml, guide-2.xml, ...); for degenerate dot-led
basenames the pathlib stem and suffixes can drop part of the name, so the
counter does not always sit before the extension (see C6_counterexample). -/
theorem C6_name_collision (P url_basename : String) (gzipped : Bool) (n : Nat) :
    assign_final_names (List.replicate (n + 1) P) [] =
      P :: ((List.range n).map fun i => collision_candidate P (i + 1)) ∧
    (nameSuffix url_basename = "" →
      proposed_filename_of url_basename gzipped =
        url_basename ++ (if gzipped then ".xml.gz" else ".xml")) ∧
    (nameSuffix url_basename ≠ "" →
      proposed_filename_of url_basename gzipped = url_basename) := by
  refine ⟨?_, ?_, ?_⟩
  · rw [List.replicate_succ]
    simp only [assign_final_names]
    have hfree : find_free_name [] P = P := by
      unfold find_free_name
      simp
    rw [hfree]
    show P :: assign_final_names (List.replicate n P) (used_after P 0) = _
    rw [assign_replicate_aux P n 0]
    congr 1
    apply List.map_congr_left
    intro i _
    congr 1
    omega
  · intro h
    simp [proposed_filename_of, h]
  · intro h
    simp [proposed_filename_of, h]

/-- Witness for C6 at concrete inputs: three feeds proposing guide.xml are
assigned guide.xml, guide-1.xml, guide-2.xml in order, and both branches of
the proposed-filename rule are exercised. -/
theorem C6_witness :
    assign_final_names ["guide.xml", "guide.xml", "guide.xml"] [] =
      ["guide.xml", "guide-1.xml", "guide-2.xml"] ∧
    proposed_filename_of "guide" true = "guide.xml.gz" ∧
    proposed_filename_of "guide.xml" false = "guide.xml" := by
  refine ⟨?_, ?_, ?_⟩
  · have h := (C6_name_collision "guide.xml" "x" false 2).1
    have h2 : ("guide.xml" ::
        ((List.range 2).map fun i => collision_candidate "guide.xml" (i + 1))) =
        ["guide.xml", "guide-1.xml", "guide-2.xml"] := by decide
    have h3 : assign_final_names (List.replicate (2 + 1) "guide.xml") [] =
        assign_final_names ["guide.xml", "guide.xml", "guide.xml"] [] := rfl
    rw [← h3, h, h2]
  · have h := (C6_name_collision "x" "guide" true 0).2.1 (by decide)
    rw [h]
    decide
  · have h := (C6_name_collision "x" "guide.xml" false 0).2.2 (by decide)
    rw [h]

/-- Modelled from the spec: claim C6 places the dash counter before the
extension, so the colliding name is the proposal minus its extension
(PurePath.stem), the dash counter, then the extension itself
(PurePath.suffix). -/
def spec_collision_name (proposed_filename : String) (counter : Nat) : String :=
  nameStem proposed_filename ++ "-" ++ decRepr counter ++ nameSuffix proposed_filename

/-- Counterexample to claim C6 as stated: the basename ..a is a reachable
proposed filename (its suffix .a is non-empty, so lines 604-609 keep it
unchanged), but its pathlib stem is the single dot and its pathlib suffixes
list is empty, so the second colliding feed is finalized as .-1 by lines
613-617: the name body is dropped and the extension .a does not even appear
in the result, while the claim prescribes the counter before the extension,
that is .-1.a as rendered by the spec-side rule. -/
theorem C6_counterexample :
    assign_final_names ["..a", "..a"] [] = ["..a", ".-1"] ∧
    proposed_filename_of "..a" false = "..a" ∧
    collision_candidate "..a" 1 = ".-1" ∧
    spec_collision_name "..a" 1 = ".-1.a" ∧
    collision_candidate "..a" 1 ≠ spec_collision_name "..a" 1 ∧
    strEndsWith ".-1" (nameSuffix "..a") = false := by
  refine ⟨?_, ?_, ?_, ?_, ?_, ?_⟩ <;> decide

/-! ## Grouping stage of the full update (perform_full_update, lines 205-270)
and group-map resolution in main (lines 559-564) -/

/-- A channel element as visited by the representative parse of a group
(lines 249-261): its optional id and its first icon child, when any. -/
structure ChannelElem where
  id : Option String
  icon : Option IconTag
  deriving DecidableEq

/-- Outcome of stream-parsing the representative feed of a group for its
channel elements (lines 246-264): the elements in document order, or an
exception. -/
inductive ChannelParse where
  | ok (channels : List ChannelElem)
  | raises (msg : String)
  deriving DecidableEq

/-- Python dict assignment: replace the value of an existing key in place,
or append the binding. -/
def upsert (m : List (String × String)) (k v : String) : List (String × String) :=
  match m with
  | [] => [(k, v)]
  | (k0, v0) :: rest => if k0 = k then (k, v) :: rest else (k0, v0) :: upsert rest k v

/-- Lines 250-261: build icon_map_for_group from the representative channel
elements: every channel with a truthy id and an icon child carrying src
contributes id to URL, capped at 5000 elements. -/
def icon_map_of_channels : List ChannelElem → Nat → List (String × String) →
    List (String × String)
  | [], _, icon_map => icon_map
  | channel :: rest, count, icon_map =>
    if count > 5000 then icon_map
    else
      let icon_map' :=
        match channel.id, channel.icon with
        | some channel_id, some icon_tag =>
          if channel_id ≠ "" then
            match icon_tag.src with
            | some icon_url => upsert icon_map channel_id icon_url
            | none => icon_map
          else icon_map
        | _, _ => icon_map
      icon_map_of_channels rest (count + 1) icon_map'

/-- One fetched feed as the grouping stage sees it: its config entry, the
outcome of the icon iterparse (signature stage), and the outcome of the
channel iterparse (map-building stage, used when it is the representative). -/
structure FeedRec where
  entry : FeedEntry
  icons_parse : FeedParse
  channels_parse : ChannelParse

/-- Line 215: the signature of one fetched feed. -/
def feed_signature (sha256 : String → String) (f : FeedRec) : Option String :=
  get_icon_signature_fast sha256 f.icons_parse

/-- defaultdict(list) grouping (line 216): append the feed to its signature
group, keeping first-encounter key order. -/
def add_to_group (gs : List (Option String × List FeedRec)) (sig : Option String)
    (f : FeedRec) : List (Option String × List FeedRec) :=
  match gs with
  | [] => [(sig, [f])]
  | (s, l) :: rest =>
    if s = sig then (s, l ++ [f]) :: rest else (s, l) :: add_to_group rest sig f

/-- Lines 210-220: group the fetched feeds by signature. -/
def group_feeds (sha256 : String → String) (feeds : List FeedRec) :
    List (Option String × List FeedRec) :=
  feeds.foldl (fun gs f => add_to_group gs (feed_signature sha256 f) f) []

/-- Lines 236-268, the source_to_group rows one group contributes: every
member URL maps to None for the nil-signature group (lines 238-241); for a
signed group whose representative parses, every member URL maps to the
signature (lines 267-268); a representative parse failure skips the whole
group (lines 262-264). -/
def source_to_group_of (group : Option String × List FeedRec) :
    List (String × Option String) :=
  match group.1 with
  | none => group.2.map fun f => (f.entry.url, (none : Option String))
  | some signature =>
    match group.2 with
    | [] => []
    | representative :: _ =>
      match representative.channels_parse with
      | ChannelParse.raises _ => []
      | ChannelParse.ok _ => group.2.map fun f => (f.entry.url, some signature)

/-- Lines 243-266, the groups rows one group contributes: the nil group and
a failed representative contribute none; otherwise the signature maps to the
icon map built from the representative. -/
def group_entry_of (group : Option String × List FeedRec) : List (String × IconGroup) :=
  match group.1 with
  | none => []
  | some signature =>
    match group.2 with
    | [] => []
    | representative :: _ =>
      match representative.channels_parse with
      | ChannelParse.raises _ => []
      | ChannelParse.ok channels => [(signature, ⟨icon_map_of_channels channels 0 []⟩)]

/-- The source_to_group table built by the full update. -/
def build_source_to_group (sha256 : String → String) (feeds : List FeedRec) :
    List (String × Option String) :=
  (group_feeds sha256 feeds).flatMap source_to_group_of

/-- The groups table built by the full update. -/
def build_groups (sha256 : String → String) (feeds : List FeedRec) :
    List (String × IconGroup) :=
  (group_feeds sha256 feeds).flatMap group_entry_of

/-- Lines 559-564 of main: resolve the group map for one source URL: empty
unless source_to_group yields a truthy signature present in groups. -/
def resolve_group_map (groups : List (String × IconGroup))
    (source_to_group : List (String × Option String)) (source_url : String) :
    List (String × String) :=
  match source_to_group.lookup source_url with
  | some (some group_hash) =>
    if group_hash ≠ "" then
      match groups.lookup group_hash with
      | some g => g.icon_map
      | none => []
    else []
  | _ => []

theorem add_to_group_flatten (gs : List (Option String × List FeedRec))
    (sig : Option String) (f : FeedRec) :
    List.Perm ((add_to_group gs sig f).flatMap (fun g => g.2))
      (gs.flatMap (fun g => g.2) ++ [f]) := by
  induction gs with
  | nil => simp [add_to_group]
  | cons g0 rest ih =>
    obtain ⟨s, l⟩ := g0
    by_cases hs : s = sig
    · simp only [add_to_group, hs, if_true, List.flatMap_cons]
      rw [List.append_assoc, List.append_assoc]
      exact List.Perm.append_left l List.perm_append_comm
    · simp only [add_to_group, hs, if_false, List.flatMap_cons]
      rw [List.append_assoc]
      exact List.Perm.append_left l ih

theorem group_feeds_flatten_aux (sha256 : String → String) (feeds : List FeedRec) :
    ∀ gs, List.Perm
      ((feeds.foldl (fun gs f => add_to_group gs (feed_signature sha256 f) f) gs).flatMap
        (fun g => g.2))
      (gs.flatMap (fun g => g.2) ++ feeds) := by
  induction feeds with
  | nil =>
    intro gs
    simp
  | cons f rest ih =>
    intro gs
    simp only [List.foldl_cons]
    refine (ih (add_to_group gs (feed_signature sha256 f) f)).trans ?_
    refine ((add_to_group_flatten gs (feed_signature sha256 f) f).append_right rest).trans ?_
    rw [List.append_assoc, List.singleton_append]

theorem group_feeds_flatten (sha256 : String → String) (feeds : List FeedRec) :
    List.Perm ((group_feeds sha256 feeds).flatMap (fun g => g.2)) feeds := by
  have h := group_feeds_flatten_aux sha256 feeds []
  simpa using h

/-- Every member of a group carries the group key as its signature. -/
def sig_consistent (sha256 : String → String)
    (gs : List (Option String × List FeedRec)) : Prop :=
  ∀ g ∈ gs, ∀ x ∈ g.2, feed_signature sha256 x = g.1

theorem add_to_group_consistent (sha256 : String → String)
    (gs : List (Option String × List FeedRec)) (sig : Option String) (f : FeedRec)
    (hf : feed_signature sha256 f = sig) (hgs : sig_consistent sha256 gs) :
    sig_consistent sha256 (add_to_group gs sig f) := by
  induction gs with
  | nil =>
    intro g hg x hx
    simp only [add_to_group, List.mem_singleton] at hg
    subst hg
    simp only [List.mem_singleton] at hx
    subst hx
    exact hf
  | cons g0 rest ih =>
    obtain ⟨s, l⟩ := g0
    intro g hg x hx
    by_cases hs : s = sig
    · simp only [add_to_group, hs, if_true, List.mem_cons] at hg
      rcases hg with rfl | hg
      · rcases List.mem_append.mp hx with hxl | hxf
        · have hx0 := hgs (s, l) (List.mem_cons_self _ _) x hxl
          rw [hs] at hx0
          exact hx0
        · simp only [List.mem_singleton] at hxf
          subst hxf
          exact hf
      · exact hgs g (List.mem_cons_of_mem _ hg) x hx
    · simp only [add_to_group, hs, if_false, List.mem_cons] at hg
      rcases hg with rfl | hg
      · exact hgs (s, l) (List.mem_cons_self _ _) x hx
      · exact ih (fun g2 hg2 => hgs g2 (List.mem_cons_of_mem _ hg2)) g hg x hx

theorem group_feeds_consistent (sha256 : String → String) (feeds : List FeedRec) :
    sig_consistent sha256 (group_feeds sha256 feeds) := by
  unfold group_feeds
  have haux : ∀ (fs : List FeedRec) (gs : List (Option String × List FeedRec)),
      sig_consistent sha256 gs →
      sig_consistent sha256
        (fs.foldl (fun gs f => add_to_group gs (feed_signature sha256 f) f) gs) := by
    intro fs
    induction fs with
    | nil => intro gs hgs; exact hgs
    | cons f rest ih =>
      intro gs hgs
      simp only [List.foldl_cons]
      exact ih _ (add_to_group_consistent sha256 gs _ f rfl hgs)
  exact haux feeds [] (fun g hg => absurd hg (List.not_mem_nil g))

theorem stg_mem_of_nil_signature (sha256 : String → String) (feeds : List FeedRec)
    (f : FeedRec) (hf : f ∈ feeds) (hsig : feed_signature sha256 f = none) :
    (f.entry.url, (none : Option String)) ∈ build_source_to_group sha256 feeds := by
  have hmem : f ∈ (group_feeds sha256 feeds).flatMap (fun g => g.2) :=
    (group_feeds_flatten sha256 feeds).mem_iff.mpr hf
  obtain ⟨g, hg, hfg⟩ := List.mem_flatMap.mp hmem
  have hg1 : g.1 = none := by
    rw [← group_feeds_consistent sha256 feeds g hg f hfg, hsig]
  apply List.mem_flatMap.mpr
  refine ⟨g, hg, ?_⟩
  unfold source_to_group_of
  rw [hg1]
  exact List.mem_map.mpr ⟨f, hfg, rfl⟩

theorem flatMap_sublist_flatMap {α β : Type} (l : List α) (f g : α → List β)
    (h : ∀ a ∈ l, List.Sublist (f a) (g a)) : List.Sublist (l.flatMap f) (l.flatMap g) := by
  induction l with
  | nil => simp
  | cons a rest ih =>
    simp only [List.flatMap_cons]
    exact (h a (List.mem_cons_self _ _)).append
      (ih fun b hb => h b (List.mem_cons_of_mem _ hb))

theorem stg_keys_sublist (sha256 : String → String) (feeds : List FeedRec) :
    List.Sublist ((build_source_to_group sha256 feeds).map Prod.fst)
      (((group_feeds sha256 feeds).flatMap (fun g => g.2)).map fun x => x.entry.url) := by
  unfold build_source_to_group
  rw [List.map_flatMap, List.map_flatMap]
  apply flatMap_sublist_flatMap
  intro g _
  obtain ⟨s, l⟩ := g
  cases s with
  | none =>
    simp only [source_to_group_of, List.map_map]
    have hcomp : (Prod.fst ∘ fun f : FeedRec => (f.entry.url, (none : Option String))) =
        fun x : FeedRec => x.entry.url := by
      funext x
      rfl
    rw [hcomp]
  | some signature =>
    cases l with
    | nil => simp [source_to_group_of]
    | cons representative rest =>
      cases hcp : representative.channels_parse with
      | raises msg => simp [source_to_group_of, hcp]
      | ok channels =>
        simp only [source_to_group_of, hcp, List.map_map]
        have hcomp : (Prod.fst ∘ fun f : FeedRec => (f.entry.url, some signature)) =
            fun x : FeedRec => x.entry.url := by
          funext x
          rfl
        rw [hcomp]

theorem stg_keys_nodup (sha256 : String → String) (feeds : List FeedRec)
    (hnd : (feeds.map fun f => f.entry.url).Nodup) :
    ((build_source_to_group sha256 feeds).map Prod.fst).Nodup := by
  have hperm := (group_feeds_flatten sha256 feeds).map fun x => x.entry.url
  have hnd2 : (((group_feeds sha256 feeds).flatMap (fun g => g.2)).map
      fun x => x.entry.url).Nodup := hperm.nodup_iff.mpr hnd
  exact hnd2.sublist (stg_keys_sublist sha256 feeds)

theorem lookup_of_mem_of_nodup_keys {β : Type} (l : List (String × β)) (k : String) (v : β)
    (hnd : (l.map Prod.fst).Nodup) (hmem : (k, v) ∈ l) : l.lookup k = some v := by
  induction l with
  | nil => exact absurd hmem (List.not_mem_nil _)
  | cons p rest ih =>
    obtain ⟨k0, v0⟩ := p
    simp only [List.map_cons, List.nodup_cons] at hnd
    rcases List.mem_cons.mp hmem with heq | hmem2
    · have h1 : k = k0 := congrArg Prod.fst heq
      have h2 : v = v0 := congrArg Prod.snd heq
      subst h1
      subst h2
      simp [List.lookup]
    · have hk : k ∈ rest.map Prod.fst := List.mem_map.mpr ⟨(k, v), hmem2, rfl⟩
      have hk0 : k0 ≠ k := fun hcontra => hnd.1 (hcontra ▸ hk)
      have hbeq : (k == k0) = false := beq_false_of_ne fun hc => hk0 hc.symm
      simp only [List.lookup, hbeq]
      exact ih hnd.2 hmem2

/-- Claim C9: a feed whose signature parse raises gets the nil signature —
exactly like a feed with no icons — its source URL maps to the null group in
the source_to_group table built by the full update, the resolved group map
for it is empty, and the rewriter pass over its channels makes zero changes
and leaves every channel untouched. -/
theorem C9_malformed_feed_nil_bucket (sha256 : String → String) (msg : String)
    (feeds : List FeedRec) (f : FeedRec) (icon_pool : List (String × String))
    (pool_on_disk : String → Bool) (owner repo_name : String) (channels : List Channel)
    (hf : f ∈ feeds) (hmsg : f.icons_parse = FeedParse.raises msg)
    (hnd : (feeds.map fun x => x.entry.url).Nodup) :
    feed_signature sha256 f = none ∧
    feed_signature sha256 f = get_icon_signature_fast sha256 (.ok []) ∧
    (build_source_to_group sha256 feeds).lookup f.entry.url = some none ∧
    resolve_group_map (build_groups sha256 feeds) (build_source_to_group sha256 feeds)
      f.entry.url = [] ∧
    process_epg_channels
        (resolve_group_map (build_groups sha256 feeds) (build_source_to_group sha256 feeds)
          f.entry.url)
        icon_pool pool_on_disk owner repo_name channels = (channels, 0) := by
  have hsig : feed_signature sha256 f = none := by
    rw [feed_signature, hmsg]
    rfl
  have hlookup : (build_source_to_group sha256 feeds).lookup f.entry.url = some none :=
    lookup_of_mem_of_nodup_keys _ _ _ (stg_keys_nodup sha256 feeds hnd)
      (stg_mem_of_nil_signature sha256 feeds f hf hsig)
  have hresolve : resolve_group_map (build_groups sha256 feeds)
      (build_source_to_group sha256 feeds) f.entry.url = [] := by
    unfold resolve_group_map
    rw [hlookup]
  refine ⟨hsig, ?_, hlookup, hresolve, ?_⟩
  · rw [hsig]
    rfl
  · rw [hresolve]
    simp [process_epg_channels]

/-- Witness for C9 at a concrete input: one feed whose parse raises, with a
one-channel file: its source maps to the null group and the rewrite pass
returns the channels unchanged with zero changes. -/
theorem C9_witness :
    (build_source_to_group (fun s => s)
        [⟨⟨"u", "d"⟩, FeedParse.raises "boom", ChannelParse.ok []⟩]).lookup "u" =
      some none ∧
    process_epg_channels
        (resolve_group_map
          (build_groups (fun s => s)
            [⟨⟨"u", "d"⟩, FeedParse.raises "boom", ChannelParse.ok []⟩])
          (build_source_to_group (fun s => s)
            [⟨⟨"u", "d"⟩, FeedParse.raises "boom", ChannelParse.ok []⟩])
          "u")
        [] (fun _ => false) "o" "r" [⟨some "c1", []⟩] = ([⟨some "c1", []⟩], 0) := by
  have h := C9_malformed_feed_nil_bucket (fun s => s) "boom"
    [⟨⟨"u", "d"⟩, FeedParse.raises "boom", ChannelParse.ok []⟩]
    ⟨⟨"u", "d"⟩, FeedParse.raises "boom", ChannelParse.ok []⟩
    [] (fun _ => false) "o" "r" [⟨some "c1", []⟩]
    (List.mem_singleton.mpr rfl) rfl (by simp)
  exact ⟨h.2.2.1, h.2.2.2.2⟩

end EpgUpdater
